import Mathlib

set_option maxRecDepth 100000

instance {ε α : Type} [DecidableEq ε] [DecidableEq α] : DecidableEq (Except ε α) := fun a b =>
  match a, b with
  | .ok x, .ok y =>
      if h : x = y then isTrue (by rw [h]) else isFalse (by simp [h])
  | .error x, .error y =>
      if h : x = y then isTrue (by rw [h]) else isFalse (by simp [h])
  | .ok _, .error _ => isFalse (by simp)
  | .error _, .ok _ => isFalse (by simp)

/-!
Shallow embedding of the `tmsick/totp` Go package (file `totp.go`) and of the
hash primitives it calls (`crypto/sha1`, `crypto/sha256`, `crypto/sha512`,
`crypto/hmac`, `encoding/base32` from the Go standard library).

Bytes are modelled as `Nat` values below 256, byte strings as `List Nat`.
Machine words are `Nat` with explicit masking modulo 2^32 / 2^64.
-/

namespace Totp

/-- 32-bit mask. -/
def mask32 : Nat := 0xffffffff

/-- 64-bit mask. -/
def mask64 : Nat := 0xffffffffffffffff

/-- Rotate a 32-bit word left by `n` (0 < n < 32). -/
def rotl32 (x n : Nat) : Nat :=
  ((x <<< n) ||| (x >>> (32 - n))) &&& mask32

/-- Rotate a 32-bit word right by `n` (0 < n < 32). -/
def rotr32 (x n : Nat) : Nat :=
  ((x >>> n) ||| (x <<< (32 - n))) &&& mask32

/-- Rotate a 64-bit word right by `n` (0 < n < 64). -/
def rotr64 (x n : Nat) : Nat :=
  ((x >>> n) ||| (x <<< (64 - n))) &&& mask64

/-- Big-endian 4-byte serialization of a 32-bit word. -/
def word32ToBytes (w : Nat) : List Nat :=
  [(w >>> 24) &&& 0xff, (w >>> 16) &&& 0xff, (w >>> 8) &&& 0xff, w &&& 0xff]

/-- Big-endian 8-byte serialization of a 64-bit word. -/
def word64ToBytes (w : Nat) : List Nat :=
  [(w >>> 56) &&& 0xff, (w >>> 48) &&& 0xff, (w >>> 40) &&& 0xff, (w >>> 32) &&& 0xff,
   (w >>> 24) &&& 0xff, (w >>> 16) &&& 0xff, (w >>> 8) &&& 0xff, w &&& 0xff]

/-- Big-endian 16-byte serialization of a 128-bit length field (SHA-512 padding). -/
def word128ToBytes (w : Nat) : List Nat :=
  word64ToBytes (w >>> 64) ++ word64ToBytes (w &&& mask64)

/-- Group a byte list into big-endian 32-bit words (4 bytes each). -/
def bytesToWords32 : List Nat → List Nat
  | a :: b :: c :: d :: rest =>
      ((a <<< 24) ||| (b <<< 16) ||| (c <<< 8) ||| d) :: bytesToWords32 rest
  | _ => []

/-- Group a byte list into big-endian 64-bit words (8 bytes each). -/
def bytesToWords64 : List Nat → List Nat
  | a :: b :: c :: d :: e :: f :: g :: h :: rest =>
      ((a <<< 56) ||| (b <<< 48) ||| (c <<< 40) ||| (d <<< 32) |||
       (e <<< 24) ||| (f <<< 16) ||| (g <<< 8) ||| h) :: bytesToWords64 rest
  | _ => []

/-- Split a list into consecutive chunks of `n` elements (fuel-driven). -/
def chunksGo (fuel n : Nat) (l : List Nat) : List (List Nat) :=
  match fuel, l with
  | _, [] => []
  | 0, _ => []
  | fuel + 1, l => l.take n :: chunksGo fuel n (l.drop n)

/-- Split a list into consecutive chunks of `n` elements. -/
def chunks (n : Nat) (l : List Nat) : List (List Nat) :=
  chunksGo l.length n l

/-- Merkle–Damgård padding for 64-byte blocks (SHA-1, SHA-256): append `0x80`,
zero bytes, and the 8-byte big-endian bit length, reaching a multiple of 64. -/
def mdPad64 (msg : List Nat) : List Nat :=
  let l := msg.length
  msg ++ 0x80 :: List.replicate (63 - (l + 8) % 64) 0 ++ word64ToBytes (8 * l)

/-- Merkle–Damgård padding for 128-byte blocks (SHA-512): append `0x80`,
zero bytes, and the 16-byte big-endian bit length, reaching a multiple of 128. -/
def mdPad128 (msg : List Nat) : List Nat :=
  let l := msg.length
  msg ++ 0x80 :: List.replicate (127 - (l + 16) % 128) 0 ++ word128ToBytes (8 * l)

/-! ### SHA-1 (FIPS 180-4), as invoked through Go `crypto/sha1` -/

structure SHA1State where
  a : Nat
  b : Nat
  c : Nat
  d : Nat
  e : Nat

def sha1Init : SHA1State := ⟨0x67452301, 0xefcdab89, 0x98badcfe, 0x10325476, 0xc3d2e1f0⟩

/-- Extend the 16 message words to 80; `acc` holds the words produced so far in
reverse order, `t` counts the remaining extension steps. -/
def sha1ExtendGo : Nat → List Nat → List Nat
  | 0, acc => acc.reverse
  | t + 1, acc =>
      let w := rotl32 ((acc.getD 2 0) ^^^ (acc.getD 7 0) ^^^ (acc.getD 13 0) ^^^ (acc.getD 15 0)) 1
      sha1ExtendGo t (w :: acc)

/-- SHA-1 round function selected by the round index. -/
def sha1F (t b c d : Nat) : Nat :=
  if t < 20 then (b &&& c) ||| ((b ^^^ mask32) &&& d)
  else if t < 40 then b ^^^ c ^^^ d
  else if t < 60 then (b &&& c) ||| (b &&& d) ||| (c &&& d)
  else b ^^^ c ^^^ d

/-- SHA-1 round constant selected by the round index. -/
def sha1K (t : Nat) : Nat :=
  if t < 20 then 0x5a827999
  else if t < 40 then 0x6ed9eba1
  else if t < 60 then 0x8f1bbcdc
  else 0xca62c1d6

def sha1Rounds : Nat → List Nat → SHA1State → SHA1State
  | _, [], s => s
  | t, w :: ws, ⟨a, b, c, d, e⟩ =>
      let temp := (rotl32 a 5 + sha1F t b c d + e + sha1K t + w) &&& mask32
      sha1Rounds (t + 1) ws ⟨temp, a, rotl32 b 30, c, d⟩

def sha1Compress (s : SHA1State) (block : List Nat) : SHA1State :=
  let w := sha1ExtendGo 64 (bytesToWords32 block).reverse
  let r := sha1Rounds 0 w s
  ⟨(s.a + r.a) &&& mask32, (s.b + r.b) &&& mask32, (s.c + r.c) &&& mask32,
   (s.d + r.d) &&& mask32, (s.e + r.e) &&& mask32⟩

def sha1Digest (s : SHA1State) : List Nat :=
  word32ToBytes s.a ++ word32ToBytes s.b ++ word32ToBytes s.c ++
  word32ToBytes s.d ++ word32ToBytes s.e

/-- SHA-1 of a byte string. -/
def sha1 (msg : List Nat) : List Nat :=
  sha1Digest ((chunks 64 (mdPad64 msg)).foldl sha1Compress sha1Init)

/-! ### SHA-256 (FIPS 180-4), as invoked through Go `crypto/sha256` -/

structure SHA256State where
  a : Nat
  b : Nat
  c : Nat
  d : Nat
  e : Nat
  f : Nat
  g : Nat
  h : Nat

def sha256Init : SHA256State :=
  ⟨0x6a09e667, 0xbb67ae85, 0x3c6ef372, 0xa54ff53a,
   0x510e527f, 0x9b05688c, 0x1f83d9ab, 0x5be0cd19⟩

/-- The 64 SHA-256 round constants of FIPS 180-4 §4.2.2 (the first 32 bits of
the fractional parts of the cube roots of the first 64 primes), written in
decimal; the first is 0x428a2f98, the last 0xc67178f2. -/
def sha256K : List Nat :=
  [1116352408, 1899447441, 3049323471, 3921009573, 961987163, 1508970993,
   2453635748, 2870763221, 3624381080, 310598401, 607225278, 1426881987,
   1925078388, 2162078206, 2614888103, 3248222580, 3835390401, 4022224774,
   264347078, 604807628, 770255983, 1249150122, 1555081692, 1996064986,
   2554220882, 2821834349, 2952996808, 3210313671, 3336571891, 3584528711,
   113926993, 338241895, 666307205, 773529912, 1294757372, 1396182291,
   1695183700, 1986661051, 2177026350, 2456956037, 2730485921, 2820302411,
   3259730800, 3345764771, 3516065817, 3600352804, 4094571909, 275423344,
   430227734, 506948616, 659060556, 883997877, 958139571, 1322822218,
   1537002063, 1747873779, 1955562222, 2024104815, 2227730452, 2361852424,
   2428436474, 2756734187, 3204031479, 3329325298]

/-- SHA-256 small sigma 0. -/
def sha256s0 (x : Nat) : Nat := rotr32 x 7 ^^^ rotr32 x 18 ^^^ (x >>> 3)

/-- SHA-256 small sigma 1. -/
def sha256s1 (x : Nat) : Nat := rotr32 x 17 ^^^ rotr32 x 19 ^^^ (x >>> 10)

/-- SHA-256 big Sigma 0. -/
def sha256S0 (x : Nat) : Nat := rotr32 x 2 ^^^ rotr32 x 13 ^^^ rotr32 x 22

/-- SHA-256 big Sigma 1. -/
def sha256S1 (x : Nat) : Nat := rotr32 x 6 ^^^ rotr32 x 11 ^^^ rotr32 x 25

/-- Extend the 16 message words to 64; `acc` is reversed, `t` counts down. -/
def sha256ExtendGo : Nat → List Nat → List Nat
  | 0, acc => acc.reverse
  | t + 1, acc =>
      let w := (sha256s1 (acc.getD 1 0) + acc.getD 6 0 + sha256s0 (acc.getD 14 0)
                  + acc.getD 15 0) &&& mask32
      sha256ExtendGo t (w :: acc)

def sha256Rounds : List Nat → List Nat → SHA256State → SHA256State
  | k :: ks, w :: ws, ⟨a, b, c, d, e, f, g, h⟩ =>
      let ch := (e &&& f) ^^^ ((e ^^^ mask32) &&& g)
      let maj := (a &&& b) ^^^ (a &&& c) ^^^ (b &&& c)
      let t1 := (h + sha256S1 e + ch + k + w) &&& mask32
      let t2 := (sha256S0 a + maj) &&& mask32
      sha256Rounds ks ws ⟨(t1 + t2) &&& mask32, a, b, c, (d + t1) &&& mask32, e, f, g⟩
  | _, _, s => s

def sha256Compress (s : SHA256State) (block : List Nat) : SHA256State :=
  let w := sha256ExtendGo 48 (bytesToWords32 block).reverse
  let r := sha256Rounds sha256K w s
  ⟨(s.a + r.a) &&& mask32, (s.b + r.b) &&& mask32, (s.c + r.c) &&& mask32,
   (s.d + r.d) &&& mask32, (s.e + r.e) &&& mask32, (s.f + r.f) &&& mask32,
   (s.g + r.g) &&& mask32, (s.h + r.h) &&& mask32⟩

def sha256Digest (s : SHA256State) : List Nat :=
  word32ToBytes s.a ++ word32ToBytes s.b ++ word32ToBytes s.c ++ word32ToBytes s.d ++
  word32ToBytes s.e ++ word32ToBytes s.f ++ word32ToBytes s.g ++ word32ToBytes s.h

/-- SHA-256 of a byte string. -/
def sha256 (msg : List Nat) : List Nat :=
  sha256Digest ((chunks 64 (mdPad64 msg)).foldl sha256Compress sha256Init)

/-! ### SHA-512 (FIPS 180-4), as invoked through Go `crypto/sha512` -/

structure SHA512State where
  a : Nat
  b : Nat
  c : Nat
  d : Nat
  e : Nat
  f : Nat
  g : Nat
  h : Nat

def sha512Init : SHA512State :=
  ⟨0x6a09e667f3bcc908, 0xbb67ae8584caa73b, 0x3c6ef372fe94f82b, 0xa54ff53a5f1d36f1,
   0x510e527fade682d1, 0x9b05688c2b3e6c1f, 0x1f83d9abfb41bd6b, 0x5be0cd19137e2179⟩

/-- The 80 SHA-512 round constants of FIPS 180-4 §4.2.3 (the first 64 bits of
the fractional parts of the cube roots of the first 80 primes), written in
decimal; the first is 0x428a2f98d728ae22, the last 0x6c44198c4a475817, and the
upper halves of the first 64 are exactly the entries of `sha256K`. -/
def sha512K : List Nat :=
  [4794697086780616226, 8158064640168781261, 13096744586834688815, 16840607885511220156,
   4131703408338449720, 6480981068601479193, 10538285296894168987, 12329834152419229976,
   15566598209576043074, 1334009975649890238, 2608012711638119052, 6128411473006802146,
   8268148722764581231, 9286055187155687089, 11230858885718282805, 13951009754708518548,
   16472876342353939154, 17275323862435702243, 1135362057144423861, 2597628984639134821,
   3308224258029322869, 5365058923640841347, 6679025012923562964, 8573033837759648693,
   10970295158949994411, 12119686244451234320, 12683024718118986047, 13788192230050041572,
   14330467153632333762, 15395433587784984357, 489312712824947311, 1452737877330783856,
   2861767655752347644, 3322285676063803686, 5560940570517711597, 5996557281743188959,
   7280758554555802590, 8532644243296465576, 9350256976987008742, 10552545826968843579,
   11727347734174303076, 12113106623233404929, 14000437183269869457, 14369950271660146224,
   15101387698204529176, 15463397548674623760, 17586052441742319658, 1182934255886127544,
   1847814050463011016, 2177327727835720531, 2830643537854262169, 3796741975233480872,
   4115178125766777443, 5681478168544905931, 6601373596472566643, 7507060721942968483,
   8399075790359081724, 8693463985226723168, 9568029438360202098, 10144078919501101548,
   10430055236837252648, 11840083180663258601, 13761210420658862357, 14299343276471374635,
   14566680578165727644, 15097957966210449927, 16922976911328602910, 17689382322260857208,
   500013540394364858, 748580250866718886, 1242879168328830382, 1977374033974150939,
   2944078676154940804, 3659926193048069267, 4368137639120453308, 4836135668995329356,
   5532061633213252278, 6448918945643986474, 6902733635092675308, 7801388544844847127]

/-- SHA-512 small sigma 0. -/
def sha512s0 (x : Nat) : Nat := rotr64 x 1 ^^^ rotr64 x 8 ^^^ (x >>> 7)

/-- SHA-512 small sigma 1. -/
def sha512s1 (x : Nat) : Nat := rotr64 x 19 ^^^ rotr64 x 61 ^^^ (x >>> 6)

/-- SHA-512 big Sigma 0. -/
def sha512S0 (x : Nat) : Nat := rotr64 x 28 ^^^ rotr64 x 34 ^^^ rotr64 x 39

/-- SHA-512 big Sigma 1. -/
def sha512S1 (x : Nat) : Nat := rotr64 x 14 ^^^ rotr64 x 18 ^^^ rotr64 x 41

/-- Extend the 16 message words to 80; `acc` is reversed, `t` counts down. -/
def sha512ExtendGo : Nat → List Nat → List Nat
  | 0, acc => acc.reverse
  | t + 1, acc =>
      let w := (sha512s1 (acc.getD 1 0) + acc.getD 6 0 + sha512s0 (acc.getD 14 0)
                  + acc.getD 15 0) &&& mask64
      sha512ExtendGo t (w :: acc)

def sha512Rounds : List Nat → List Nat → SHA512State → SHA512State
  | k :: ks, w :: ws, ⟨a, b, c, d, e, f, g, h⟩ =>
      let ch := (e &&& f) ^^^ ((e ^^^ mask64) &&& g)
      let maj := (a &&& b) ^^^ (a &&& c) ^^^ (b &&& c)
      let t1 := (h + sha512S1 e + ch + k + w) &&& mask64
      let t2 := (sha512S0 a + maj) &&& mask64
      sha512Rounds ks ws ⟨(t1 + t2) &&& mask64, a, b, c, (d + t1) &&& mask64, e, f, g⟩
  | _, _, s => s

def sha512Compress (s : SHA512State) (block : List Nat) : SHA512State :=
  let w := sha512ExtendGo 64 (bytesToWords64 block).reverse
  let r := sha512Rounds sha512K w s
  ⟨(s.a + r.a) &&& mask64, (s.b + r.b) &&& mask64, (s.c + r.c) &&& mask64,
   (s.d + r.d) &&& mask64, (s.e + r.e) &&& mask64, (s.f + r.f) &&& mask64,
   (s.g + r.g) &&& mask64, (s.h + r.h) &&& mask64⟩

def sha512Digest (s : SHA512State) : List Nat :=
  word64ToBytes s.a ++ word64ToBytes s.b ++ word64ToBytes s.c ++ word64ToBytes s.d ++
  word64ToBytes s.e ++ word64ToBytes s.f ++ word64ToBytes s.g ++ word64ToBytes s.h

/-- SHA-512 of a byte string. -/
def sha512 (msg : List Nat) : List Nat :=
  sha512Digest ((chunks 128 (mdPad128 msg)).foldl sha512Compress sha512Init)

/-! ### Hash algorithm selector

In `totp.go` the `algorithm` struct couples a display name with a hash
constructor (`sha1.New` / `sha256.New` / `sha512.New`); the set is closed, so
it is embedded as an inductive type. -/

inductive Alg
  | SHA1
  | SHA256
  | SHA512
  deriving DecidableEq

/-- The hash function the variant invokes (the `proc` field). -/
def Alg.hash : Alg → List Nat → List Nat
  | .SHA1 => sha1
  | .SHA256 => sha256
  | .SHA512 => sha512

/-- HMAC block size of the underlying hash (64 for SHA-1/SHA-256, 128 for SHA-512). -/
def Alg.blockSize : Alg → Nat
  | .SHA1 => 64
  | .SHA256 => 64
  | .SHA512 => 128

/-- Display name (the `name` field of the Go `algorithm` struct). -/
def Alg.name : Alg → String
  | .SHA1 => "SHA1"
  | .SHA256 => "SHA256"
  | .SHA512 => "SHA512"

/-- HMAC (RFC 2104), as computed by Go `crypto/hmac`: keys longer than the
block size are first hashed, the key is zero-padded to the block size, and the
digest is `H((key ⊕ opad) ∥ H((key ⊕ ipad) ∥ msg))`. -/
def hmac (alg : Alg) (key msg : List Nat) : List Nat :=
  let k0 := if alg.blockSize < key.length then alg.hash key else key
  let kp := k0 ++ List.replicate (alg.blockSize - k0.length) 0
  alg.hash ((kp.map (fun b => b ^^^ 0x5c)) ++ alg.hash ((kp.map (fun b => b ^^^ 0x36)) ++ msg))

/-! ### Decimal formatting (Go `fmt.Sprintf("%0*d", digits, n)` for `n ≥ 0`) -/

/-- The ASCII character of a decimal digit value. -/
def digitChar (d : Nat) : Char := Char.ofNat (48 + d)

/-- Decimal digit characters of `n`, most significant first (fuel-driven). -/
def decReprGo : Nat → Nat → List Char → List Char
  | 0, _, acc => acc
  | fuel + 1, n, acc =>
      if n < 10 then digitChar n :: acc
      else decReprGo fuel (n / 10) (digitChar (n % 10) :: acc)

/-- Decimal representation of a natural number as a character list. -/
def decRepr (n : Nat) : List Char := decReprGo (n + 1) n []

/-- Left-zero-pad the decimal representation of `n` to `digits` characters,
as `fmt.Sprintf` does with a `%0<digits>d` template for non-negative `n`. -/
def formatOTP (digits n : Nat) : String :=
  String.mk (List.replicate (digits - (decRepr n).length) '0' ++ decRepr n)

/-! ### `hotp` (totp.go) -/

/-- Embedding of `hotp(msg, secret, algorithm, digits)` from `totp.go`:
HMAC, dynamic truncation at `offset = mac[len(mac)-1] & 0x0f`, masking of the
top bit, reduction mod `10^digits` and zero-padded formatting.
Byte indexing is modelled with `List.getD` (Go would panic out of bounds; the
in-bounds property is proved separately). `int(math.Pow10(digits))` is exact
for `digits ≤ 10`, hence `10 ^ digits`. -/
def hotp (msg secret : List Nat) (alg : Alg) (digits : Nat) : String :=
  let mac := hmac alg secret msg
  let i := (mac.getD (mac.length - 1) 0) &&& 0x0f
  let n := (((mac.getD (i + 0) 0) &&& 0x7f) <<< 0o30)
         + (((mac.getD (i + 1) 0) &&& 0xff) <<< 0o20)
         + (((mac.getD (i + 2) 0) &&& 0xff) <<< 0o10)
         + (((mac.getD (i + 3) 0) &&& 0xff) <<< 0o00)
  formatOTP digits (n % 10 ^ digits)

/-! ### Token and Generate (totp.go) -/

/-- The `Token` struct of `totp.go`. `digits` and `period` are stored after
validation, hence as `Nat` (their validated ranges are positive). -/
structure Token where
  label : String
  secret : List Nat
  issuer : String
  algorithm : Alg
  digits : Nat
  period : Nat
  deriving DecidableEq

def Token.Label (t : Token) : String := t.label

def Token.Issuer (t : Token) : String := t.issuer

def Token.Algorithm (t : Token) : String := t.algorithm.name

def Token.Digits (t : Token) : Nat := t.digits

def Token.Period (t : Token) : Nat := t.period

/-- The eight-byte counter message `msg` built in `Token.Generate`: the
big-endian bytes of the two's-complement `int64` bit pattern of the counter
`u` (`w = u mod 2^64`), the top byte masked with `0x7f` as in the source. -/
def counterBytes (u : Int) : List Nat :=
  let w : Nat := (Int.emod u (2 ^ 64)).toNat
  [(w &&& 0x7f00000000000000) >>> 0o70,
   (w &&& 0x00ff000000000000) >>> 0o60,
   (w &&& 0x0000ff0000000000) >>> 0o50,
   (w &&& 0x000000ff00000000) >>> 0o40,
   (w &&& 0x00000000ff000000) >>> 0o30,
   (w &&& 0x0000000000ff0000) >>> 0o20,
   (w &&& 0x000000000000ff00) >>> 0o10,
   (w &&& 0x00000000000000ff) >>> 0o00]

/-- Embedding of `Token.Generate`. `m.Unix()` is the timestamp in Unix
seconds (an `int64`, here `Int`); `u := m.Unix() / int64(t.period)` is Go
`int64` division, which truncates toward zero (`Int.tdiv`). -/
def Token.Generate (t : Token) (unix : Int) : String :=
  hotp (counterBytes (Int.tdiv unix (t.period : Int))) t.secret t.algorithm t.digits

/-! ### Unpadded Base32 decoding (Go `encoding/base32`,
`StdEncoding.WithPadding(NoPadding).DecodeString`)

`DecodeString` first strips `\r` and `\n` bytes, then decodes 8-character
quanta into 5 bytes; a final partial quantum of 2, 4, 5 or 7 characters yields
1, 2, 3 or 4 bytes, and final lengths of 1, 3 or 6 characters are rejected as
corrupt input. Characters outside `A–Z2–7` (including `=`, which is not a
padding character in `NoPadding` mode) are rejected. Trailing bits of a final
partial quantum are discarded without a canonicality check, as in Go. -/

/-- The 5-bit value of a base32 alphabet character (`A–Z` → 0–25, `2–7` → 26–31). -/
def base32CharVal (c : Char) : Option Nat :=
  if 'A' ≤ c ∧ c ≤ 'Z' then some (c.toNat - 65)
  else if '2' ≤ c ∧ c ≤ '7' then some (c.toNat - 50 + 26)
  else none

def b32Bytes2 (d0 d1 : Nat) : List Nat :=
  [((d0 <<< 3) ||| (d1 >>> 2)) &&& 0xff]

def b32Bytes4 (d0 d1 d2 d3 : Nat) : List Nat :=
  b32Bytes2 d0 d1 ++ [((d1 <<< 6) ||| (d2 <<< 1) ||| (d3 >>> 4)) &&& 0xff]

def b32Bytes5 (d0 d1 d2 d3 d4 : Nat) : List Nat :=
  b32Bytes4 d0 d1 d2 d3 ++ [((d3 <<< 4) ||| (d4 >>> 1)) &&& 0xff]

def b32Bytes7 (d0 d1 d2 d3 d4 d5 d6 : Nat) : List Nat :=
  b32Bytes5 d0 d1 d2 d3 d4 ++ [((d4 <<< 7) ||| (d5 <<< 2) ||| (d6 >>> 3)) &&& 0xff]

def b32Bytes8 (d0 d1 d2 d3 d4 d5 d6 d7 : Nat) : List Nat :=
  b32Bytes7 d0 d1 d2 d3 d4 d5 d6 ++ [((d6 <<< 5) ||| d7) &&& 0xff]

/-- Decode a list of 5-bit values quantum by quantum; final quanta of length
1, 3 or 6 are invalid. -/
def b32Quanta : List Nat → Option (List Nat)
  | [] => some []
  | [d0, d1] => some (b32Bytes2 d0 d1)
  | [d0, d1, d2, d3] => some (b32Bytes4 d0 d1 d2 d3)
  | [d0, d1, d2, d3, d4] => some (b32Bytes5 d0 d1 d2 d3 d4)
  | [d0, d1, d2, d3, d4, d5, d6] => some (b32Bytes7 d0 d1 d2 d3 d4 d5 d6)
  | d0 :: d1 :: d2 :: d3 :: d4 :: d5 :: d6 :: d7 :: rest =>
      (b32Quanta rest).map (fun bs => b32Bytes8 d0 d1 d2 d3 d4 d5 d6 d7 ++ bs)
  | _ => none

/-- Map each character to its 5-bit value, failing on an invalid character. -/
def b32CharVals : List Char → Option (List Nat)
  | [] => some []
  | c :: cs =>
      match base32CharVal c with
      | none => none
      | some d => (b32CharVals cs).map (fun ds => d :: ds)

/-- Unpadded Base32 decoding of a string: strip CR/LF, then decode. -/
def base32DecodeNoPad (s : String) : Option (List Nat) :=
  (b32CharVals (s.data.filter (fun c => c ≠ '\n' ∧ c ≠ '\r'))).bind b32Quanta

/-! ### `strconv.Atoi` -/

/-- The value of a decimal digit character. -/
def parseDecDigit (c : Char) : Option Nat :=
  if '0' ≤ c ∧ c ≤ '9' then some (c.toNat - 48) else none

/-- Accumulate decimal digits; any non-digit fails. -/
def parseNatGo : List Char → Nat → Option Nat
  | [], acc => some acc
  | c :: cs, acc =>
      match parseDecDigit c with
      | some d => parseNatGo cs (acc * 10 + d)
      | none => none

/-- Embedding of `strconv.Atoi`: optional single sign, then one or more
decimal digits, nothing else. (Go additionally rejects values outside the
`int` range; for this program such values are rejected by the subsequent
range checks in either case, so overflow is not modelled.) -/
def atoi (s : String) : Option Int :=
  match s.data with
  | [] => none
  | '+' :: cs => if cs = [] then none else (parseNatGo cs 0).map Int.ofNat
  | '-' :: cs => if cs = [] then none else (parseNatGo cs 0).map (fun n => -(n : Int))
  | cs => (parseNatGo cs 0).map Int.ofNat

/-! ### NewToken (totp.go)

`url.Parse` is Go standard library; its output is modelled as a record of the
components `NewToken` reads: `u.Scheme`, `u.Host`, `u.Path`, and the query as
the ordered key/value pairs that `url.ParseQuery` produces (keys and values
percent-decoded, in order of appearance). `u.Query().Get(key)` returns the
value of the FIRST occurrence of `key`, and `Has` tests membership. -/

structure URL where
  scheme : String
  host : String
  path : String
  query : List (String × String)

/-- `url.Values.Has`. -/
def queryHas (q : List (String × String)) (k : String) : Bool :=
  q.any (fun p => p.1 == k)

/-- `url.Values.Get`: the value of the first occurrence of `k`, `""` if absent. -/
def queryGet (q : List (String × String)) (k : String) : String :=
  match q.find? (fun p => p.1 == k) with
  | some p => p.2
  | none => ""

/-- `strings.ToUpper`, which uppercases ASCII letters (`String.toUpper` with
the character map written out, which keeps the character list transparent). -/
def toUpperStr (s : String) : String :=
  String.mk (s.data.map Char.toUpper)

/-- `strings.Trim(s, "/")`. -/
def trimSlashes (s : String) : String :=
  String.mk (((s.data.dropWhile (fun c => c = '/')).reverse.dropWhile (fun c => c = '/')).reverse)

/-- The distinct error returns of `NewToken`, one per `return nil, fmt.Errorf(...)` site.
(The `MalformedURI` case lives in `url.Parse`, outside this embedding.) -/
inductive TotpError
  | invalidScheme
  | invalidHost
  | emptySecret
  | invalidSecret
  | missingSecret
  | invalidAlgorithm
  | digitsNotInt
  | digitsRange
  | periodNotInt
  | periodRange
  deriving DecidableEq

/-- The `// Process secret [REQUIRED]` block of `NewToken` (`rawSecret` is
`queryGet q "secret"`, written inline). -/
def parseSecret (q : List (String × String)) : Except TotpError (List Nat) :=
  if queryHas q "secret" then
    if queryGet q "secret" = "" then .error .emptySecret
    else
      match base32DecodeNoPad (toUpperStr (queryGet q "secret")) with
      | none => .error .invalidSecret
      | some secret => .ok secret
  else .error .missingSecret

/-- The `// Process algorithm [OPTIONAL]` block of `NewToken`; the Go
`switch` on the raw value is a chain of string equality tests. -/
def parseAlgorithm (q : List (String × String)) : Except TotpError Alg :=
  if queryHas q "algorithm" then
    if queryGet q "algorithm" = "SHA1" then .ok .SHA1
    else if queryGet q "algorithm" = "SHA256" then .ok .SHA256
    else if queryGet q "algorithm" = "SHA512" then .ok .SHA512
    else .error .invalidAlgorithm
  else .ok .SHA1

/-- The `// Process digits [OPTIONAL]` block of `NewToken`. -/
def parseDigits (q : List (String × String)) : Except TotpError Nat :=
  if queryHas q "digits" then
    match atoi (queryGet q "digits") with
    | none => .error .digitsNotInt
    | some d => if d < 6 ∨ 10 < d then .error .digitsRange else .ok d.toNat
  else .ok 6

/-- The `// Process period [OPTIONAL]` block of `NewToken`. -/
def parsePeriod (q : List (String × String)) : Except TotpError Nat :=
  if queryHas q "period" then
    match atoi (queryGet q "period") with
    | none => .error .periodNotInt
    | some p => if p < 1 ∨ 90 < p then .error .periodRange else .ok p.toNat
  else .ok 30

/-- Embedding of `NewToken` over a parsed URL: scheme and host checks, label
trimming, then the secret, issuer, algorithm, digits and period blocks in
source order. -/
def NewToken (u : URL) : Except TotpError Token :=
  if u.scheme ≠ "otpauth" then .error .invalidScheme
  else if u.host ≠ "totp" then .error .invalidHost
  else
    match parseSecret u.query with
    | .error e => .error e
    | .ok secret =>
      match parseAlgorithm u.query with
      | .error e => .error e
      | .ok alg =>
        match parseDigits u.query with
        | .error e => .error e
        | .ok digits =>
          match parsePeriod u.query with
          | .error e => .error e
          | .ok period =>
            .ok { label := trimSlashes u.path, secret := secret,
                  issuer := if queryHas u.query "issuer" then queryGet u.query "issuer" else "",
                  algorithm := alg, digits := digits, period := period }

/-! ## Concrete values used in closed statements -/

/-- The unpadded Base32 encoding of the RFC 6238 test secret. -/
def rfcB32 : String := "GEZDGNBVGY3TQOJQGEZDGNBVGY3TQOJQ"

/-- The ASCII bytes of `"12345678901234567890"`, the RFC 6238 test secret. -/
def rfc6238Secret : List Nat := "12345678901234567890".data.map Char.toNat

def rfcTokenSHA1 : Token := ⟨"", rfc6238Secret, "", .SHA1, 8, 30⟩

def rfcTokenSHA256 : Token := ⟨"", rfc6238Secret, "", .SHA256, 8, 30⟩

def rfcTokenSHA512 : Token := ⟨"", rfc6238Secret, "", .SHA512, 8, 30⟩

def tokWithLabel : Token := ⟨"alice@example.com", rfc6238Secret, "Example", .SHA1, 8, 30⟩

def rfcURL : URL := ⟨"otpauth", "totp", "", [("secret", rfcB32), ("digits", "8")]⟩

def noSecretURL : URL := ⟨"otpauth", "totp", "", []⟩

/-- A URL whose `secret` value is a single LF character (percent-encoded
`%0A` in a real URI): non-empty, yet decoding strips it and yields no bytes. -/
def newlineSecretURL : URL := ⟨"otpauth", "totp", "/x", [("secret", "\n")]⟩

def newlineSecretToken : Token := ⟨"x", [], "", .SHA1, 6, 30⟩

def dupDigitsURL : URL :=
  ⟨"otpauth", "totp", "", [("secret", rfcB32), ("digits", "6"), ("digits", "8")]⟩

def dupDigitsToken : Token := ⟨"", rfc6238Secret, "", .SHA1, 6, 30⟩

def md5URL : URL := ⟨"otpauth", "totp", "", [("secret", rfcB32), ("algorithm", "MD5")]⟩

def labeledURL : URL := ⟨"otpauth", "totp", "/alice/", [("secret", rfcB32)]⟩

def labeledToken : Token := ⟨"alice", rfc6238Secret, "", .SHA1, 6, 30⟩

/-! ## Helper lemmas -/

lemma toNat_ofNat_valid {m : Nat} (h : m.isValidChar) : (Char.ofNat m).toNat = m := by
  rw [Char.ofNat, dif_pos h]
  rfl

/-- ASCII uppercasing maps no character onto CR or LF. -/
lemma toUpper_ne_crlf {c : Char} (h1 : c ≠ '\n') (h2 : c ≠ '\r') :
    c.toUpper ≠ '\n' ∧ c.toUpper ≠ '\r' := by
  unfold Char.toUpper
  by_cases hc : c.toNat ≥ 97 ∧ c.toNat ≤ 122
  · simp only [if_pos hc]
    have hv : (c.toNat - 32).isValidChar := by
      constructor
      omega
    have e1 : ('\n').toNat = 10 := rfl
    have e2 : ('\r').toNat = 13 := rfl
    constructor <;>
      (intro heq; have h3 := congrArg Char.toNat heq; rw [toNat_ofNat_valid hv] at h3; omega)
  · simp only [if_neg hc]
    exact ⟨h1, h2⟩

lemma sha1_length (msg : List Nat) : (sha1 msg).length = 20 := by
  simp [sha1, sha1Digest, word32ToBytes]

lemma sha256_length (msg : List Nat) : (sha256 msg).length = 32 := by
  simp [sha256, sha256Digest, word32ToBytes]

lemma sha512_length (msg : List Nat) : (sha512 msg).length = 64 := by
  simp [sha512, sha512Digest, word64ToBytes]

/-- Every HMAC the program computes is at least 20 bytes long (20, 32 or 64). -/
lemma hmac_length_ge (a : Alg) (key msg : List Nat) : 20 ≤ (hmac a key msg).length := by
  cases a <;>
    simp [hmac, Alg.hash, sha1_length, sha256_length, sha512_length]

/-- A decimal digit value yields a character in `['0', '9']`. -/
lemma digitChar_mem {d : Nat} (hd : d < 10) : '0' ≤ digitChar d ∧ digitChar d ≤ '9' := by
  interval_cases d <;> exact ⟨by decide, by decide⟩

lemma decReprGo_chars (fuel : Nat) :
    ∀ (n : Nat) (acc : List Char), (∀ c ∈ acc, '0' ≤ c ∧ c ≤ '9') →
      ∀ c ∈ decReprGo fuel n acc, '0' ≤ c ∧ c ≤ '9' := by
  induction fuel with
  | zero => intro n acc hacc; simpa [decReprGo] using hacc
  | succ fuel ih =>
      intro n acc hacc c hc
      rw [decReprGo] at hc
      split at hc
      · rcases List.mem_cons.1 hc with rfl | hmem
        · exact digitChar_mem (by omega)
        · exact hacc c hmem
      · refine ih (n / 10) (digitChar (n % 10) :: acc) ?_ c hc
        intro c' hc'
        rcases List.mem_cons.1 hc' with rfl | hmem
        · exact digitChar_mem (Nat.mod_lt _ (by omega))
        · exact hacc c' hmem

lemma decReprGo_length_le (fuel : Nat) :
    ∀ (n d : Nat) (acc : List Char), n < fuel → 1 ≤ d → n < 10 ^ d →
      (decReprGo fuel n acc).length ≤ d + acc.length := by
  induction fuel with
  | zero => omega
  | succ fuel ih =>
      intro n d acc hfuel hd hn
      rw [decReprGo]
      split
      · simp
        omega
      · rename_i hge
        have hd2 : 2 ≤ d := by
          rcases Nat.lt_or_ge d 2 with h | h
          · interval_cases d
            omega
          · exact h
        have h1 : n / 10 < fuel := by
          have := Nat.div_lt_self (show 0 < n by omega) (show 1 < 10 by omega)
          omega
        have h2 : n / 10 < 10 ^ (d - 1) := by
          have hpow : 10 ^ d = 10 ^ (d - 1) * 10 := by
            rw [← Nat.pow_succ]
            congr 1
            omega
          exact Nat.div_lt_of_lt_mul (by omega)
        have := ih (n / 10) (d - 1) (digitChar (n % 10) :: acc) h1 (by omega) h2
        simp at this ⊢
        omega

lemma formatOTP_length {d n : Nat} (hd : 1 ≤ d) (hn : n < 10 ^ d) :
    (formatOTP d n).length = d := by
  have h := decReprGo_length_le (n + 1) n d [] (by omega) hd hn
  simp only [decRepr, List.length_nil] at h
  simp [formatOTP, String.length, decRepr]
  omega

lemma formatOTP_chars (d n : Nat) :
    ∀ c ∈ (formatOTP d n).data, '0' ≤ c ∧ c ≤ '9' := by
  intro c hc
  simp only [formatOTP, String.mk] at hc
  rcases List.mem_append.1 hc with hmem | hmem
  · have := List.eq_of_mem_replicate hmem
    subst this
    exact ⟨by decide, by decide⟩
  · exact decReprGo_chars (n + 1) n [] (by simp) c hmem

/-- The dynamic-truncation offset computed from any HMAC the program can
produce is at most 15 and all four extracted byte positions are in bounds. -/
lemma truncation_offset_bounds (a : Alg) (key msg : List Nat) :
    (((hmac a key msg).getD ((hmac a key msg).length - 1) 0) &&& 0x0f) ≤ 15 ∧
    (((hmac a key msg).getD ((hmac a key msg).length - 1) 0) &&& 0x0f) + 3 <
      (hmac a key msg).length := by
  have hlen := hmac_length_ge a key msg
  have hoff : (((hmac a key msg).getD ((hmac a key msg).length - 1) 0) &&& 0x0f) ≤ 15 :=
    Nat.and_le_right
  exact ⟨hoff, by omega⟩

/-! ## Parser characterization lemmas -/

lemma parseSecret_ok_iff (q : List (String × String)) (s : List Nat) :
    parseSecret q = .ok s ↔
      queryHas q "secret" = true ∧ queryGet q "secret" ≠ "" ∧
      base32DecodeNoPad (toUpperStr (queryGet q "secret")) = some s := by
  unfold parseSecret
  split
  · rename_i hhas
    split
    · rename_i hemp
      simp [hhas, hemp]
    · rename_i hemp
      split
      · rename_i hdec
        simp [hhas, hemp, hdec]
      · rename_i bs hdec
        simp [hhas, hemp, hdec, eq_comm]
  · rename_i hhas
    simp at hhas
    simp [hhas]

lemma parseAlgorithm_ok {q : List (String × String)} {a : Alg}
    (h : parseAlgorithm q = .ok a) :
    (queryHas q "algorithm" = false ∧ a = .SHA1) ∨
    (queryHas q "algorithm" = true ∧
      ((queryGet q "algorithm" = "SHA1" ∧ a = .SHA1) ∨
       (queryGet q "algorithm" = "SHA256" ∧ a = .SHA256) ∨
       (queryGet q "algorithm" = "SHA512" ∧ a = .SHA512))) := by
  unfold parseAlgorithm at h
  split at h
  · rename_i hhas
    right
    refine ⟨hhas, ?_⟩
    split at h
    · rename_i heq
      exact Or.inl ⟨heq, by injection h with h2; exact h2.symm⟩
    · split at h
      · rename_i heq
        exact Or.inr (Or.inl ⟨heq, by injection h with h2; exact h2.symm⟩)
      · split at h
        · rename_i heq
          exact Or.inr (Or.inr ⟨heq, by injection h with h2; exact h2.symm⟩)
        · cases h
  · rename_i hhas
    simp at hhas
    exact Or.inl ⟨hhas, by injection h with h2; exact h2.symm⟩

lemma parseAlgorithm_fail {q : List (String × String)}
    (h1 : queryHas q "algorithm" = true)
    (h2 : queryGet q "algorithm" ≠ "SHA1") (h3 : queryGet q "algorithm" ≠ "SHA256")
    (h4 : queryGet q "algorithm" ≠ "SHA512") :
    parseAlgorithm q = .error .invalidAlgorithm := by
  unfold parseAlgorithm
  rw [if_pos h1, if_neg h2, if_neg h3, if_neg h4]

lemma parseDigits_ok {q : List (String × String)} {n : Nat}
    (h : parseDigits q = .ok n) :
    (6 ≤ n ∧ n ≤ 10) ∧ (queryHas q "digits" = false → n = 6) := by
  unfold parseDigits at h
  split at h
  · rename_i hhas
    split at h
    · cases h
    · rename_i d hatoi
      split at h
      · cases h
      · rename_i hrange
        rw [Except.ok.injEq] at h
        subst h
        push_neg at hrange
        refine ⟨⟨by omega, by omega⟩, ?_⟩
        intro hfalse
        rw [hfalse] at hhas
        cases hhas
  · rename_i hhas
    rw [Except.ok.injEq] at h
    subst h
    exact ⟨⟨by omega, by omega⟩, fun _ => rfl⟩

lemma parsePeriod_ok {q : List (String × String)} {n : Nat}
    (h : parsePeriod q = .ok n) :
    (1 ≤ n ∧ n ≤ 90) ∧ (queryHas q "period" = false → n = 30) := by
  unfold parsePeriod at h
  split at h
  · rename_i hhas
    split at h
    · cases h
    · rename_i p hatoi
      split at h
      · cases h
      · rename_i hrange
        rw [Except.ok.injEq] at h
        subst h
        push_neg at hrange
        refine ⟨⟨by omega, by omega⟩, ?_⟩
        intro hfalse
        rw [hfalse] at hhas
        cases hhas
  · rename_i hhas
    rw [Except.ok.injEq] at h
    subst h
    exact ⟨⟨by omega, by omega⟩, fun _ => rfl⟩

/-- Inversion for successful `NewToken`: scheme and host matched, every
optional-parameter block succeeded, and the token fields are exactly what the
blocks produced. -/
lemma newToken_ok_elim {u : URL} {t : Token} (h : NewToken u = .ok t) :
    u.scheme = "otpauth" ∧ u.host = "totp" ∧
    parseSecret u.query = .ok t.secret ∧
    parseAlgorithm u.query = .ok t.algorithm ∧
    parseDigits u.query = .ok t.digits ∧
    parsePeriod u.query = .ok t.period ∧
    t.label = trimSlashes u.path ∧
    t.issuer = (if queryHas u.query "issuer" then queryGet u.query "issuer" else "") := by
  unfold NewToken at h
  split at h
  · cases h
  · rename_i hsch
    split at h
    · cases h
    · rename_i hhost
      split at h
      · cases h
      · rename_i secret hsec
        split at h
        · cases h
        · rename_i alg halg
          split at h
          · cases h
          · rename_i digits hdig
            split at h
            · cases h
            · rename_i period hper
              rw [Except.ok.injEq] at h
              subst h
              simp only [not_not] at hsch hhost
              exact ⟨hsch, hhost, hsec, halg, hdig, hper, rfl, rfl⟩

/-- Introduction for successful `NewToken`. -/
lemma newToken_ok_intro (u : URL) (secret : List Nat) (alg : Alg) (digits period : Nat)
    (h1 : u.scheme = "otpauth") (h2 : u.host = "totp")
    (h3 : parseSecret u.query = .ok secret) (h4 : parseAlgorithm u.query = .ok alg)
    (h5 : parseDigits u.query = .ok digits) (h6 : parsePeriod u.query = .ok period) :
    NewToken u = .ok ⟨trimSlashes u.path, secret,
      (if queryHas u.query "issuer" then queryGet u.query "issuer" else ""),
      alg, digits, period⟩ := by
  unfold NewToken
  rw [if_neg (by simp [h1]), if_neg (by simp [h2]), h3, h4, h5, h6]

/-! ## Query lemmas: the effect of a repeated key -/

lemma queryHas_append_of_has {q : List (String × String)} {k : String} (v : String)
    (hk : queryHas q k = true) (k' : String) :
    queryHas (q ++ [(k, v)]) k' = queryHas q k' := by
  simp only [queryHas, List.any_append, List.any_cons, List.any_nil, Bool.or_false]
  by_cases hkk : k = k'
  · subst hkk
    simp only [queryHas] at hk
    simp [hk]
  · simp [hkk]

lemma queryGet_append_of_has {q : List (String × String)} {k : String} (v : String)
    (hk : queryHas q k = true) (k' : String) :
    queryGet (q ++ [(k, v)]) k' = queryGet q k' := by
  unfold queryGet
  rw [List.find?_append]
  cases hf : q.find? (fun p => p.1 == k') with
  | some p => simp
  | none =>
      simp only [Option.none_or]
      by_cases hkk : k = k'
      · subst hkk
        exfalso
        rw [queryHas, List.any_eq_true] at hk
        obtain ⟨p, hp, hpk⟩ := hk
        exact absurd hpk (by simpa using List.find?_eq_none.1 hf p hp)
      · have hfb : (k == k') = false := by
          simpa using hkk
        simp [List.find?, hfb]

lemma parseSecret_congr {q1 q2 : List (String × String)}
    (hH : ∀ k, queryHas q1 k = queryHas q2 k) (hG : ∀ k, queryGet q1 k = queryGet q2 k) :
    parseSecret q1 = parseSecret q2 := by
  unfold parseSecret
  rw [hH "secret", hG "secret"]

lemma parseAlgorithm_congr {q1 q2 : List (String × String)}
    (hH : ∀ k, queryHas q1 k = queryHas q2 k) (hG : ∀ k, queryGet q1 k = queryGet q2 k) :
    parseAlgorithm q1 = parseAlgorithm q2 := by
  unfold parseAlgorithm
  rw [hH "algorithm", hG "algorithm"]

lemma parseDigits_congr {q1 q2 : List (String × String)}
    (hH : ∀ k, queryHas q1 k = queryHas q2 k) (hG : ∀ k, queryGet q1 k = queryGet q2 k) :
    parseDigits q1 = parseDigits q2 := by
  unfold parseDigits
  rw [hH "digits", hG "digits"]

lemma parsePeriod_congr {q1 q2 : List (String × String)}
    (hH : ∀ k, queryHas q1 k = queryHas q2 k) (hG : ∀ k, queryGet q1 k = queryGet q2 k) :
    parsePeriod q1 = parsePeriod q2 := by
  unfold parsePeriod
  rw [hH "period", hG "period"]

/-- `NewToken` reads the query only through `queryHas` and `queryGet`. -/
lemma newToken_query_congr (s h p : String) (q1 q2 : List (String × String))
    (hH : ∀ k, queryHas q1 k = queryHas q2 k) (hG : ∀ k, queryGet q1 k = queryGet q2 k) :
    NewToken ⟨s, h, p, q1⟩ = NewToken ⟨s, h, p, q2⟩ := by
  unfold NewToken
  rw [parseSecret_congr hH hG, parseAlgorithm_congr hH hG, parseDigits_congr hH hG,
      parsePeriod_congr hH hG, hH "issuer", hG "issuer"]

/-! ## Base32 non-emptiness lemmas -/

lemma b32CharVals_nil_iff {cs : List Char} {ds : List Nat}
    (h : b32CharVals cs = some ds) : ds = [] ↔ cs = [] := by
  induction cs generalizing ds with
  | nil =>
      rw [b32CharVals, Option.some.injEq] at h
      subst h
      simp
  | cons c cs ih =>
      rw [b32CharVals] at h
      cases hcv : base32CharVal c with
      | none => rw [hcv] at h; cases h
      | some d =>
          rw [hcv] at h
          obtain ⟨ds', hds', rfl⟩ := Option.map_eq_some'.1 h
          simp

lemma b32Quanta_ne_nil {ds bs : List Nat} (h : b32Quanta ds = some bs)
    (hne : ds ≠ []) : bs ≠ [] := by
  rcases ds with _ | ⟨d0, _ | ⟨d1, _ | ⟨d2, _ | ⟨d3, _ | ⟨d4, _ | ⟨d5, _ | ⟨d6, _ | ⟨d7, rest⟩⟩⟩⟩⟩⟩⟩⟩
  · exact absurd rfl hne
  · simp [b32Quanta] at h
  · rw [b32Quanta, Option.some.injEq] at h
    subst h
    simp [b32Bytes2]
  · simp [b32Quanta] at h
  · rw [b32Quanta, Option.some.injEq] at h
    subst h
    simp [b32Bytes4, b32Bytes2]
  · rw [b32Quanta, Option.some.injEq] at h
    subst h
    simp [b32Bytes5, b32Bytes4, b32Bytes2]
  · simp [b32Quanta] at h
  · rw [b32Quanta, Option.some.injEq] at h
    subst h
    simp [b32Bytes7, b32Bytes5, b32Bytes4, b32Bytes2]
  · rw [b32Quanta] at h
    obtain ⟨bs', hbs', rfl⟩ := Option.map_eq_some'.1 h
    simp [b32Bytes8, b32Bytes7, b32Bytes5, b32Bytes4, b32Bytes2]

/-- A successful decode of a string with at least one non-CR/LF character
yields at least one byte. -/
lemma base32DecodeNoPad_ne_nil {s : String} {bs : List Nat}
    (h : base32DecodeNoPad s = some bs)
    (hne : s.data.filter (fun c => c ≠ '\n' ∧ c ≠ '\r') ≠ []) : bs ≠ [] := by
  unfold base32DecodeNoPad at h
  obtain ⟨ds, hds, hq⟩ := Option.bind_eq_some.1 h
  refine b32Quanta_ne_nil hq ?_
  intro hdnil
  exact hne ((b32CharVals_nil_iff hds).1 hdnil)

/-! ## Claim theorems -/

/-- C1: with the secret whose unpadded Base32 encoding is
`GEZDGNBVGY3TQOJQGEZDGNBVGY3TQOJQ` (the ASCII bytes of
`"12345678901234567890"`) and `digits=8`, `Generate` reproduces the RFC 6238
test vectors: SHA1 at 59 → `"94287082"`, SHA1 at 1111111109 → `"07081804"`,
SHA256 at 59 → `"32247374"`, SHA512 at 59 → `"69342147"`, SHA1 at 2000000000
→ `"69279037"`. The tokens are obtained through `NewToken` itself. -/
theorem rfc6238_vectors :
    base32DecodeNoPad "GEZDGNBVGY3TQOJQGEZDGNBVGY3TQOJQ" = some rfc6238Secret ∧
    NewToken ⟨"otpauth", "totp", "",
      [("secret", "GEZDGNBVGY3TQOJQGEZDGNBVGY3TQOJQ"), ("digits", "8")]⟩ = .ok rfcTokenSHA1 ∧
    NewToken ⟨"otpauth", "totp", "",
      [("secret", "GEZDGNBVGY3TQOJQGEZDGNBVGY3TQOJQ"), ("digits", "8"),
       ("algorithm", "SHA256")]⟩ = .ok rfcTokenSHA256 ∧
    NewToken ⟨"otpauth", "totp", "",
      [("secret", "GEZDGNBVGY3TQOJQGEZDGNBVGY3TQOJQ"), ("digits", "8"),
       ("algorithm", "SHA512")]⟩ = .ok rfcTokenSHA512 ∧
    rfcTokenSHA1.Generate 59 = "94287082" ∧
    rfcTokenSHA1.Generate 1111111109 = "07081804" ∧
    rfcTokenSHA256.Generate 59 = "32247374" ∧
    rfcTokenSHA512.Generate 59 = "69342147" ∧
    rfcTokenSHA1.Generate 2000000000 = "69279037" := by
  decide

/-- C2: for every token whose digit count lies in `[6, 10]` and every
timestamp, `Generate` returns a string of length exactly `digits` consisting
only of decimal digit characters. -/
theorem generate_length_and_digits (t : Token) (unix : Int)
    (h6 : 6 ≤ t.digits) (h10 : t.digits ≤ 10) :
    (t.Generate unix).length = t.digits ∧
    ∀ c ∈ (t.Generate unix).data, '0' ≤ c ∧ c ≤ '9' := by
  have hpow : 0 < 10 ^ t.digits := by positivity
  have hlt : ∀ m : Nat, m % 10 ^ t.digits < 10 ^ t.digits := fun m => Nat.mod_lt _ hpow
  constructor
  · simp only [Token.Generate, hotp]
    exact formatOTP_length (by omega) (hlt _)
  · simp only [Token.Generate, hotp]
    exact formatOTP_chars _ _

theorem generate_length_and_digits_witness :
    (6 ≤ rfcTokenSHA1.digits ∧ rfcTokenSHA1.digits ≤ 10) ∧
    ((rfcTokenSHA1.Generate 59).length = rfcTokenSHA1.digits ∧
     ∀ c ∈ (rfcTokenSHA1.Generate 59).data, '0' ≤ c ∧ c ≤ '9') :=
  ⟨by decide, generate_length_and_digits rfcTokenSHA1 59 (by decide) (by decide)⟩

/-- C6 (amended): `Generate` depends on the timestamp only through the
truncated-toward-zero quotient `unix_seconds quot period` (Go `int64`
division), which agrees with `floor(unix_seconds / period)` for non-negative
timestamps: equal truncated quotients give identical OTPs. -/
theorem generate_counter_determined (t : Token) (u1 u2 : Int)
    (h : Int.tdiv u1 (t.period : Int) = Int.tdiv u2 (t.period : Int)) :
    t.Generate u1 = t.Generate u2 := by
  simp only [Token.Generate, h]

theorem generate_counter_determined_witness :
    Int.tdiv 30 ((rfcTokenSHA1.period : Nat) : Int)
      = Int.tdiv 59 ((rfcTokenSHA1.period : Nat) : Int) ∧
    rfcTokenSHA1.Generate 30 = rfcTokenSHA1.Generate 59 :=
  ⟨by decide, generate_counter_determined rfcTokenSHA1 30 59 (by decide)⟩

/-- C6 counterexample: the timestamps −30 and −1 have the same floor quotient
`floor(t / 30) = −1`, yet `Generate` (which divides truncating toward zero)
returns different OTPs, so `Generate` does not depend on the timestamp only
through `floor(unix_seconds / period)`. -/
theorem floor_counter_counterexample :
    Int.fdiv (-30) ((rfcTokenSHA1.period : Nat) : Int)
      = Int.fdiv (-1) ((rfcTokenSHA1.period : Nat) : Int) ∧
    rfcTokenSHA1.Generate (-30) ≠ rfcTokenSHA1.Generate (-1) := by
  decide

/-- C8: `Generate` is total: for every token and timestamp, the MAC is at
least 20 bytes long, the dynamic-truncation offset is at most 15, and all four
extracted byte positions `offset .. offset+3` are strictly within the MAC. -/
theorem generate_truncation_safe (t : Token) (unix : Int) :
    20 ≤ (hmac t.algorithm t.secret (counterBytes (Int.tdiv unix (t.period : Int)))).length ∧
    (((hmac t.algorithm t.secret (counterBytes (Int.tdiv unix (t.period : Int)))).getD
        ((hmac t.algorithm t.secret (counterBytes (Int.tdiv unix (t.period : Int)))).length - 1) 0)
      &&& 0x0f) ≤ 15 ∧
    (((hmac t.algorithm t.secret (counterBytes (Int.tdiv unix (t.period : Int)))).getD
        ((hmac t.algorithm t.secret (counterBytes (Int.tdiv unix (t.period : Int)))).length - 1) 0)
      &&& 0x0f) + 3 <
      (hmac t.algorithm t.secret (counterBytes (Int.tdiv unix (t.period : Int)))).length := by
  have h1 := hmac_length_ge t.algorithm t.secret (counterBytes (Int.tdiv unix (t.period : Int)))
  have h2 := truncation_offset_bounds t.algorithm t.secret
    (counterBytes (Int.tdiv unix (t.period : Int)))
  exact ⟨h1, h2.1, h2.2⟩

/-- C10: two tokens agreeing on secret, algorithm, digits and period generate
identical OTPs at every timestamp; label and issuer have no influence. -/
theorem generate_ignores_label_issuer (t1 t2 : Token) (unix : Int)
    (hs : t1.secret = t2.secret) (ha : t1.algorithm = t2.algorithm)
    (hd : t1.digits = t2.digits) (hp : t1.period = t2.period) :
    t1.Generate unix = t2.Generate unix := by
  simp only [Token.Generate, hs, ha, hd, hp]

theorem generate_ignores_label_issuer_witness :
    (tokWithLabel.secret = rfcTokenSHA1.secret ∧
     tokWithLabel.algorithm = rfcTokenSHA1.algorithm ∧
     tokWithLabel.digits = rfcTokenSHA1.digits ∧
     tokWithLabel.period = rfcTokenSHA1.period ∧
     tokWithLabel.label ≠ rfcTokenSHA1.label ∧
     tokWithLabel.issuer ≠ rfcTokenSHA1.issuer) ∧
    tokWithLabel.Generate 59 = rfcTokenSHA1.Generate 59 :=
  ⟨by decide, generate_ignores_label_issuer tokWithLabel rfcTokenSHA1 59 rfl rfl rfl rfl⟩

/-- C3: every token returned by `NewToken` has `6 ≤ digits ≤ 10` and
`1 ≤ period ≤ 90`, with defaults 6 and 30 when the query parameters are
absent. -/
theorem digits_period_invariant (u : URL) (t : Token) (h : NewToken u = .ok t) :
    (6 ≤ t.digits ∧ t.digits ≤ 10 ∧ 1 ≤ t.period ∧ t.period ≤ 90) ∧
    (queryHas u.query "digits" = false → t.digits = 6) ∧
    (queryHas u.query "period" = false → t.period = 30) := by
  obtain ⟨-, -, -, -, hdig, hper, -, -⟩ := newToken_ok_elim h
  have hd := parseDigits_ok hdig
  have hp := parsePeriod_ok hper
  exact ⟨⟨hd.1.1, hd.1.2, hp.1.1, hp.1.2⟩, hd.2, hp.2⟩

theorem digits_period_invariant_witness :
    NewToken rfcURL = .ok rfcTokenSHA1 ∧
    ((6 ≤ rfcTokenSHA1.digits ∧ rfcTokenSHA1.digits ≤ 10 ∧
      1 ≤ rfcTokenSHA1.period ∧ rfcTokenSHA1.period ≤ 90) ∧
     (queryHas rfcURL.query "digits" = false → rfcTokenSHA1.digits = 6) ∧
     (queryHas rfcURL.query "period" = false → rfcTokenSHA1.period = 30)) :=
  ⟨by decide, digits_period_invariant rfcURL rfcTokenSHA1 (by decide)⟩

/-- C4 (amended): `NewToken` fails whenever the `secret` parameter is absent,
its value is the empty string, or the uppercased value does not decode as
unpadded Base32; on success the token's secret holds the raw decoded bytes,
and these are non-empty whenever the secret value contains at least one
character other than CR and LF (a value made only of CR/LF characters decodes
to zero bytes, because the Go Base32 decoder strips them). -/
theorem secret_validation (u : URL) :
    ((queryHas u.query "secret" = false ∨ queryGet u.query "secret" = "" ∨
        base32DecodeNoPad (toUpperStr (queryGet u.query "secret")) = none) →
      ∀ t, NewToken u ≠ .ok t) ∧
    (∀ t, NewToken u = .ok t →
      base32DecodeNoPad (toUpperStr (queryGet u.query "secret")) = some t.secret ∧
      ((∃ c ∈ (queryGet u.query "secret").data, c ≠ '\n' ∧ c ≠ '\r') →
        t.secret ≠ [])) := by
  constructor
  · rintro hbad t hok
    obtain ⟨-, -, hsec, -, -, -, -, -⟩ := newToken_ok_elim hok
    rw [parseSecret_ok_iff] at hsec
    obtain ⟨hsA, hsB, hsC⟩ := hsec
    rcases hbad with hb | hb | hb
    · rw [hb] at hsA
      cases hsA
    · exact hsB hb
    · rw [hb] at hsC
      cases hsC
  · intro t hok
    obtain ⟨-, -, hsec, -, -, -, -, -⟩ := newToken_ok_elim hok
    rw [parseSecret_ok_iff] at hsec
    obtain ⟨hsA, hsB, hsC⟩ := hsec
    refine ⟨hsC, ?_⟩
    rintro ⟨c, hc, hcn, hcr⟩
    refine base32DecodeNoPad_ne_nil hsC ?_
    have hmem : c.toUpper ∈ (toUpperStr (queryGet u.query "secret")).data :=
      List.mem_map_of_mem Char.toUpper hc
    have hup := toUpper_ne_crlf hcn hcr
    refine List.ne_nil_of_mem (List.mem_filter.2 ⟨hmem, ?_⟩)
    simp [hup.1, hup.2]

theorem secret_validation_witness :
    (queryHas noSecretURL.query "secret" = false ∧
     NewToken noSecretURL ≠ .ok rfcTokenSHA1) ∧
    (NewToken rfcURL = .ok rfcTokenSHA1 ∧
     base32DecodeNoPad (toUpperStr (queryGet rfcURL.query "secret"))
       = some rfcTokenSHA1.secret ∧
     rfcTokenSHA1.secret ≠ []) :=
  ⟨⟨by decide, (secret_validation noSecretURL).1 (Or.inl (by decide)) rfcTokenSHA1⟩,
   by decide,
   ((secret_validation rfcURL).2 rfcTokenSHA1 (by decide)).1,
   ((secret_validation rfcURL).2 rfcTokenSHA1 (by decide)).2
     ⟨'G', by decide, by decide, by decide⟩⟩

/-- C4 counterexample: the secret value consisting of a single LF character is
non-empty and decodes (Go's Base32 decoder strips CR/LF), so `NewToken`
succeeds and returns a token whose secret is the empty byte string — success
with an empty secret, contradicting the claim that the secret is non-empty on
every success. -/
theorem empty_secret_counterexample :
    queryGet newlineSecretURL.query "secret" ≠ "" ∧
    NewToken newlineSecretURL = .ok newlineSecretToken ∧
    newlineSecretToken.secret = [] := by
  decide

/-- C5 (amended): for a key that already occurs in the query, appending a
further occurrence does not change the result of `NewToken`: the FIRST
occurrence of a repeated key wins (Go's `url.Values.Get` returns the first
value), not the last. -/
theorem repeated_key_first_wins (s h p k v : String) (q : List (String × String))
    (hk : queryHas q k = true) :
    NewToken ⟨s, h, p, q ++ [(k, v)]⟩ = NewToken ⟨s, h, p, q⟩ :=
  newToken_query_congr s h p (q ++ [(k, v)]) q
    (fun k' => queryHas_append_of_has v hk k') (fun k' => queryGet_append_of_has v hk k')

theorem repeated_key_first_wins_witness :
    queryHas rfcURL.query "digits" = true ∧
    NewToken ⟨"otpauth", "totp", "", rfcURL.query ++ [("digits", "9")]⟩
      = NewToken ⟨"otpauth", "totp", "", rfcURL.query⟩ :=
  ⟨by decide, repeated_key_first_wins "otpauth" "totp" "" "digits" "9" rfcURL.query (by decide)⟩

/-- C5 counterexample: with `digits` given twice (`6` then `8`), the last
occurrence is `("digits", "8")`, yet the parsed token has `digits = 6`: the
descriptor reflects the first value of the repeated key, not the last. -/
theorem last_wins_counterexample :
    dupDigitsURL.query.getLastD ("", "") = ("digits", "8") ∧
    NewToken dupDigitsURL = .ok dupDigitsToken ∧
    dupDigitsToken.digits = 6 ∧ dupDigitsToken.digits ≠ 8 := by
  decide

/-- C7: on success the token's label is the URI path stripped of leading and
trailing slashes, the `Label` accessor returns exactly that value, and the
path undergoes no further validation: replacing the path by any other string
still succeeds, changing only the label. -/
theorem label_from_path (u : URL) (t : Token) (h : NewToken u = .ok t) :
    t.Label = trimSlashes u.path ∧
    ∀ p, NewToken ⟨u.scheme, u.host, p, u.query⟩ = .ok { t with label := trimSlashes p } := by
  obtain ⟨h1, h2, h3, h4, h5, h6, h7, h8⟩ := newToken_ok_elim h
  refine ⟨by simpa [Token.Label] using h7, ?_⟩
  intro p
  have hi := newToken_ok_intro ⟨u.scheme, u.host, p, u.query⟩ t.secret t.algorithm t.digits
    t.period h1 h2 h3 h4 h5 h6
  rcases t with ⟨lab, sec, iss, alg, dig, per⟩
  simp only at h8 hi ⊢
  rw [hi, h8]

theorem label_from_path_witness :
    NewToken labeledURL = .ok labeledToken ∧
    labeledToken.Label = trimSlashes labeledURL.path ∧
    NewToken ⟨"otpauth", "totp", "/a/b/", labeledURL.query⟩
      = .ok { labeledToken with label := trimSlashes "/a/b/" } :=
  ⟨by decide, (label_from_path labeledURL labeledToken (by decide)).1,
   (label_from_path labeledURL labeledToken (by decide)).2 "/a/b/"⟩

/-- C9: if `algorithm` is present, `NewToken` succeeds only when its value is
exactly `"SHA1"`, `"SHA256"` or `"SHA512"` (case-sensitive; anything else,
the empty string included, fails), and the token's algorithm matches the
value; if absent, the algorithm defaults to SHA1. -/
theorem algorithm_validation (u : URL) :
    (∀ t, NewToken u = .ok t →
      (queryHas u.query "algorithm" = false → t.algorithm = .SHA1) ∧
      (queryHas u.query "algorithm" = true →
        (queryGet u.query "algorithm" = "SHA1" ∧ t.algorithm = .SHA1) ∨
        (queryGet u.query "algorithm" = "SHA256" ∧ t.algorithm = .SHA256) ∨
        (queryGet u.query "algorithm" = "SHA512" ∧ t.algorithm = .SHA512))) ∧
    (queryHas u.query "algorithm" = true →
      queryGet u.query "algorithm" ≠ "SHA1" → queryGet u.query "algorithm" ≠ "SHA256" →
      queryGet u.query "algorithm" ≠ "SHA512" →
      ∀ t, NewToken u ≠ .ok t) := by
  constructor
  · intro t hok
    obtain ⟨-, -, -, halg, -, -, -, -⟩ := newToken_ok_elim hok
    have hcase := parseAlgorithm_ok halg
    constructor
    · intro habs
      rcases hcase with ⟨-, ha⟩ | ⟨htrue, -⟩
      · exact ha
      · rw [habs] at htrue
        cases htrue
    · intro hpres
      rcases hcase with ⟨hfalse, -⟩ | ⟨-, hcases⟩
      · rw [hpres] at hfalse
        cases hfalse
      · exact hcases
  · intro h1 h2 h3 h4 t hok
    obtain ⟨-, -, -, halg, -, -, -, -⟩ := newToken_ok_elim hok
    rw [parseAlgorithm_fail h1 h2 h3 h4] at halg
    cases halg

theorem algorithm_validation_witness :
    (NewToken rfcURL = .ok rfcTokenSHA1 ∧ queryHas rfcURL.query "algorithm" = false ∧
     rfcTokenSHA1.algorithm = .SHA1) ∧
    (queryHas md5URL.query "algorithm" = true ∧ NewToken md5URL ≠ .ok rfcTokenSHA1) :=
  ⟨⟨by decide, by decide,
    ((algorithm_validation rfcURL).1 rfcTokenSHA1 (by decide)).1 (by decide)⟩,
   ⟨by decide,
    (algorithm_validation md5URL).2 (by decide) (by decide) (by decide) (by decide)
      rfcTokenSHA1⟩⟩

end Totp
